import Mathlib

/-!
# ApnicCN: `parseLine2IPNet` and `parseApnicCN2Cos`

A shallow embedding of `src/main.go`.  Go strings are modelled as lists of
characters (`Str`); every byte-level operation used by the program (`|`, `/`,
`.`, digits, `\n`, the ASCII class `\w`) treats a non-ASCII character exactly
like any other non-matching byte.

The program is glue around the Go standard library, so the library functions
it calls are embedded too, following the library sources of current Go
releases on a 64-bit platform:
`strings.Split`, `strings.HasPrefix`, `strconv.Atoi`, `math.Log2`,
`fmt.Sprintf("%v", float64)`, `net.ParseCIDR` (with `netip.ParseAddr`,
`net.CIDRMask`, `net.IP.Mask`), `(*net.IPNet).String`, `regexp.MatchString`
for the one pattern of the program, and `bufio.Reader.ReadString`.

Some pieces of the library are not computed here and are taken as parameters
(`Stdlib`): the IPv6 branch of `netip.ParseAddr`, the IPv6 text form of an
address, the text of `32 - math.Log2(x)` when `x` is not a power of two (that
value goes through `math.Log`, whose rounding is platform code), and whether
`(*net.IPNet).String` guards against a nil receiver.
-/

namespace ApnicCN

/-- Go `string`, as the list of its characters. -/
abbrev Str := List Char

/-- Library behaviour that is left abstract. -/
structure Stdlib where
  /-- The IPv6 branch of `netip.ParseAddr`: the 16 bytes of the address, or
  `none` when the text is rejected or carries a zone (which `net.ParseCIDR`
  rejects as well). -/
  parseIPv6 : Str → Option (List Nat)
  /-- Text form of a 16-byte address that is not an IPv4-mapped one
  (`netip.Addr.String`). -/
  ip6String : List Nat → Str
  /-- Text that `%v` gives for `32 - math.Log2(float64(n))` when `float64(n)`
  is positive and not a power of two, so that `math.Log2` goes through
  `math.Log`. -/
  inexactPrefix : Int → Str
  /-- Whether `(*net.IPNet).String` starts with the guard
  `if n == nil { return "<nil>" }`, as it does in current releases; without
  the guard the method dereferences the nil receiver and panics. -/
  nilStringGuard : Bool

/-! ## `strings.Split(line, "|")` -/

/-- `strings.Split` for a one-character separator: the pieces between the
separators, always at least one piece. -/
def Split (sep : Char) : Str → List Str
  | [] => [[]]
  | c :: cs =>
    if c = sep then [] :: Split sep cs
    else
      match Split sep cs with
      | [] => [[c]]
      | f :: fs => (c :: f) :: fs

/-! ## `strconv.Atoi` -/

/-- Value of a run of decimal digits, `none` when a character is not a digit
(the loop of `strconv.Atoi` and of `strconv.ParseUint` in base 10). -/
def digitsValue : Nat → Str → Option Nat
  | acc, [] => some acc
  | acc, c :: cs =>
    if c.isDigit then digitsValue (acc * 10 + (c.toNat - '0'.toNat)) cs else none

/-- `strconv.Atoi` with a 64-bit `int`: an optional sign, then at least one
decimal digit and nothing else; `none` stands for a returned error (syntax, or
value out of range). -/
def Atoi (s : Str) : Option Int :=
  match s with
  | [] => none
  | c :: cs =>
    let neg := c = '-'
    let body := if c = '-' ∨ c = '+' then cs else c :: cs
    if body = [] then none
    else
      match digitsValue 0 body with
      | none => none
      | some n =>
        if neg then (if n ≤ 2 ^ 63 then some (-(n : Int)) else none)
        else (if n < 2 ^ 63 then some (n : Int) else none)

/-! ## `32 - math.Log2(float64(allocatedCount))` printed with `%v` -/

/-- Number of bits of a positive integer below `2^64`. -/
def bitLen (n : Nat) : Nat :=
  ((List.range 65).find? (fun b => decide (n < 2 ^ b))).getD 65

/-- The conversion `float64(n)` of a positive `int`: the value kept by a
53-bit significand, rounding to nearest, ties to even. -/
def float64OfNat (n : Nat) : Nat :=
  let b := bitLen n
  if b ≤ 53 then n
  else
    let s := b - 53
    let q := n / 2 ^ s
    let r := n % 2 ^ s
    let half := 2 ^ (s - 1)
    let q1 := if r > half ∨ (r = half ∧ q % 2 = 1) then q + 1 else q
    q1 * 2 ^ s

/-- The exponent `k` when `x = 2^k` (`math.Frexp` gives the fraction `0.5`),
for `x` up to `2^63`. -/
def pow2Exp (x : Nat) : Option Nat :=
  (List.range 64).find? (fun k => decide (2 ^ k = x))

/-- Decimal text of a natural number (`strconv` / `uitoa`). -/
def uitoa (n : Nat) : Str := (Nat.repr n).toList

/-- The text `%v` gives for an integral `float64` of small magnitude. -/
def fmtWhole (z : Int) : Str :=
  if z < 0 then '-' :: uitoa z.natAbs else uitoa z.natAbs

/-- The text of `fmt.Sprintf("%v", 32-math.Log2(float64(n)))`.
`math.Log2` of a negative number is NaN, of zero is `-Inf` (so the difference
is `+Inf`), and of a power of two `2^k` is exactly `k` (the `frac == 0.5`
branch); the remaining values are `Stdlib.inexactPrefix`. -/
def prefixText (lib : Stdlib) (n : Int) : Str :=
  if n < 0 then "NaN".toList
  else if n = 0 then "+Inf".toList
  else
    match pow2Exp (float64OfNat n.natAbs) with
    | some k => fmtWhole (32 - (k : Int))
    | none => lib.inexactPrefix n

/-! ## `net.ParseCIDR` -/

/-- The loop of `netip.parseIPv4` from character `i` on.  `atStart` is
`i == 0`, `prevDot` is `s[i-1] == '.'`, `fields` are the octets stored so far
(`pos = fields.length`), `val` and `digLen` are the loop variables; after the
last character the address needs three dots (`pos < 3` is "too short") and the
running value becomes the fourth octet. -/
def parseIPv4Loop : Bool → Bool → List Nat → Nat → Nat → Str → Option (List Nat)
  | _, _, fields, val, _, [] =>
    if fields.length < 3 then none else some (fields ++ [val])
  | atStart, prevDot, fields, val, digLen, c :: cs =>
    if c.isDigit then
      if digLen = 1 ∧ val = 0 then none
      else
        let val1 := val * 10 + (c.toNat - '0'.toNat)
        if val1 > 255 then none
        else parseIPv4Loop false false fields val1 (digLen + 1) cs
    else if c = '.' then
      if atStart ∨ cs = [] ∨ prevDot then none
      else if fields.length = 3 then none
      else parseIPv4Loop false true (fields ++ [val]) 0 0 cs
    else none

/-- `netip.parseIPv4`: the four octets of a dotted-quad text. -/
def parseIPv4 (s : Str) : Option (List Nat) :=
  parseIPv4Loop true false [] 0 0 s

/-- Parsed address (`netip.Addr` without zone). -/
inductive Addr where
  | v4 (octets : List Nat)
  | v6 (bytes : List Nat)
  deriving DecidableEq, Repr

/-- `netip.Addr.BitLen`. -/
def Addr.BitLen : Addr → Nat
  | .v4 _ => 32
  | .v6 _ => 128

/-- The prefix of an IPv4-mapped IPv6 address (`v4InV6Prefix`). -/
def v4InV6Prefix : List Nat := [0, 0, 0, 0, 0, 0, 0, 0, 0, 0, 0xff, 0xff]

/-- `netip.Addr.As16`. -/
def Addr.As16 : Addr → List Nat
  | .v4 o => v4InV6Prefix ++ o
  | .v6 b => b

/-- `netip.ParseAddr`: the first of `.`, `:`, `%` in the text selects the
parser; a text with none of them is rejected. -/
def ParseAddrFrom (lib : Stdlib) (s : Str) : Str → Option Addr
  | [] => none
  | c :: cs =>
    if c = '.' then (parseIPv4 s).map Addr.v4
    else if c = ':' then (lib.parseIPv6 s).map Addr.v6
    else if c = '%' then none
    else ParseAddrFrom lib s cs

/-- `netip.ParseAddr`. -/
def ParseAddr (lib : Stdlib) (s : Str) : Option Addr := ParseAddrFrom lib s s

/-- Splitting at the first occurrence of a character (`IndexByteString`
followed by `s[:i]`, `s[i+1:]`); `none` when it does not occur. -/
def cutAt (sep : Char) : Str → Option (Str × Str)
  | [] => none
  | c :: cs =>
    if c = sep then some ([], cs)
    else
      match cutAt sep cs with
      | none => none
      | some (a, b) => some (c :: a, b)

/-- The loop of `net.dtoi`: value and number of characters consumed, `none`
when the value reaches `0xFFFFFF`. -/
def dtoiLoop : Nat → Nat → Str → Option (Nat × Nat)
  | n, i, [] => some (n, i)
  | n, i, c :: cs =>
    if c.isDigit then
      let n1 := n * 10 + (c.toNat - '0'.toNat)
      if n1 ≥ 0xFFFFFF then none else dtoiLoop n1 (i + 1) cs
    else some (n, i)

/-- `net.dtoi`: `(n, i, ok)` is `some (n, i)` when `ok`. -/
def dtoi (s : Str) : Option (Nat × Nat) :=
  match dtoiLoop 0 0 s with
  | none => none
  | some (n, i) => if i = 0 then none else some (n, i)

/-- The loop of `net.CIDRMask`: `l` mask bytes of which the first `ones`
bits are set. -/
def cidrMaskBytes : Nat → Nat → List Nat
  | 0, _ => []
  | l + 1, n =>
    if n ≥ 8 then 0xff :: cidrMaskBytes l (n - 8)
    else (0xff - 0xff >>> n) :: cidrMaskBytes l 0

/-- `net.CIDRMask(ones, bits)` for `bits` 32 or 128 and `ones ≤ bits`. -/
def CIDRMask (ones bits : Nat) : List Nat := cidrMaskBytes (bits / 8) ones

/-- `net.IP.Mask`: `none` is the nil result. -/
def IPMask (ip mask : List Nat) : Option (List Nat) :=
  let mask1 :=
    if mask.length = 16 ∧ ip.length = 4 ∧ (mask.take 12).all (fun b => b = 0xff)
    then mask.drop 12 else mask
  let ip1 :=
    if mask1.length = 4 ∧ ip.length = 16 ∧ ip.take 12 = v4InV6Prefix
    then ip.drop 12 else ip
  if ip1.length ≠ mask1.length then none
  else some (List.zipWith (fun a m => a &&& m) ip1 mask1)

/-- `net.IPNet`: network number and mask; `IP = none` is a nil `IP`. -/
structure IPNet where
  IP : Option (List Nat)
  Mask : List Nat
  deriving DecidableEq, Repr

/-- `net.ParseCIDR`, returning the network (`none` is the error result). -/
def ParseCIDR (lib : Stdlib) (s : Str) : Option IPNet :=
  match cutAt '/' s with
  | none => none
  | some (addr, mask) =>
    match ParseAddr lib addr with
    | none => none
    | some ipAddr =>
      match dtoi mask with
      | none => none
      | some (n, i) =>
        if i ≠ mask.length ∨ n > ipAddr.BitLen then none
        else
          let m := CIDRMask n ipAddr.BitLen
          some { IP := IPMask ipAddr.As16 m, Mask := m }

/-! ## `(*net.IPNet).String` -/

/-- `net.IP.To4`: the four bytes of an IPv4 address held in 4 or 16 bytes. -/
def To4 (ip : List Nat) : Option (List Nat) :=
  if ip.length = 4 then some ip
  else if ip.length = 16 ∧ ip.take 12 = v4InV6Prefix then some (ip.drop 12)
  else none

/-- `net.networkNumberAndMask`. -/
def networkNumberAndMask (n : IPNet) : Option (List Nat × List Nat) :=
  match n.IP with
  | none => none
  | some nip =>
    let ip? := match To4 nip with
      | some ip4 => some ip4
      | none => if nip.length ≠ 16 then none else some nip
    match ip? with
    | none => none
    | some ip =>
      if n.Mask.length = 4 then
        (if ip.length ≠ 4 then none else some (ip, n.Mask))
      else if n.Mask.length = 16 then
        (if ip.length = 4 then some (ip, n.Mask.drop 12) else some (ip, n.Mask))
      else none

/-- Number of leading one bits of a byte, and what is left of the byte after
shifting them out (the inner loop of `net.simpleMaskLength`). -/
def leadingOnes : Nat → Nat → Nat × Nat
  | 0, v => (0, v)
  | fuel + 1, v =>
    if v &&& 0x80 ≠ 0 then
      let r := leadingOnes fuel ((v <<< 1) % 256)
      (r.1 + 1, r.2)
    else (0, v)

/-- `net.simpleMaskLength`: the number of leading ones of a mask made of ones
followed by zeros, `none` (the result `-1`) for any other mask. -/
def simpleMaskLength : List Nat → Option Nat
  | [] => some 0
  | v :: rest =>
    if v = 0xff then (simpleMaskLength rest).map (fun n => n + 8)
    else
      let r := leadingOnes 8 v
      if r.2 ≠ 0 then none
      else if rest.all (fun b => b = 0) then some r.1 else none

/-- Two lower-case hexadecimal digits of a byte. -/
def hexByte (b : Nat) : Str :=
  let d := "0123456789abcdef".toList
  [d.getD (b / 16 % 16) '0', d.getD (b % 16) '0']

/-- `net.IPMask.String`: the hexadecimal form, without punctuation. -/
def hexString (m : List Nat) : Str :=
  if m = [] then "<nil>".toList else (m.map hexByte).flatten

/-- `net.IP.String` for the 4 or 16 bytes of a network number. -/
def ipString (lib : Stdlib) (ip : List Nat) : Str :=
  match To4 ip with
  | some [a, b, c, d] => uitoa a ++ '.' :: (uitoa b ++ '.' :: (uitoa c ++ '.' :: uitoa d))
  | _ => lib.ip6String ip

/-- `(*net.IPNet).String` on a non-nil network. -/
def IPNet.String (lib : Stdlib) (n : IPNet) : Str :=
  match networkNumberAndMask n with
  | none => "<nil>".toList
  | some (nn, m) =>
    match simpleMaskLength m with
    | none => ipString lib nn ++ '/' :: hexString m
    | some l => ipString lib nn ++ '/' :: uitoa l

/-- `(*net.IPNet).String` on a nil receiver: the text `<nil>` when the method
has the nil guard, and `none` for the nil-pointer panic otherwise. -/
def nilNetString (lib : Stdlib) : Option Str :=
  if lib.nilStringGuard then some "<nil>".toList else none

/-! ## `parseLine2IPNet` -/

/-- The errors `parseLine2IPNet` returns. -/
inductive ParseErr where
  /-- `parse ipnet items less 4` -/
  | itemsLess4
  /-- the error of `strconv.Atoi` -/
  | atoi
  /-- the error of `net.ParseCIDR` -/
  | cidr
  deriving DecidableEq, Repr

/-- What a call of `parseLine2IPNet` does: it returns a network, returns an
error, or panics (index out of range). -/
inductive LineResult where
  | ok (net : IPNet)
  | error (e : ParseErr)
  | panic
  deriving DecidableEq, Repr

/-- `parseLine2IPNet` (main.go 33-47). -/
def parseLine2IPNet (lib : Stdlib) (line : Str) : LineResult :=
  let items := Split '|' line
  if items.length < 4 then .error .itemsLess4
  else
    match items[4]? with
    | none => .panic
    | some item4 =>
      match Atoi item4 with
      | none => .error .atoi
      | some allocatedCount =>
        match ParseCIDR lib ((items.getD 3 []) ++ '/' :: prefixText lib allocatedCount) with
        | none => .error .cidr
        | some ipNet => .ok ipNet

/-! ## `parseApnicCN2Cos` -/

/-- `ApnicCNIPv4Prefix`. -/
def ApnicCNIPv4Prefix : Str := "apnic|CN|ipv4".toList

/-- `strings.HasPrefix`. -/
def HasPrefix (s pre : Str) : Bool := pre.isPrefixOf s

/-- The class `\w` of Go regular expressions: `[0-9A-Za-z_]`. -/
def isWordChar (c : Char) : Bool := c.isAlphanum || c = '_'

/-- The two kinds of item in the pattern of the program: a literal character
(`\|` is the literal `|`) and `\w`. -/
inductive Atom where
  | lit (c : Char)
  | word
  deriving DecidableEq, Repr

/-- `ApnicIPv6Prefix`, the pattern `apnic\|\w{2}\|ipv6`. -/
def ApnicIPv6Prefix : List Atom :=
  "apnic|".toList.map Atom.lit ++ [Atom.word, Atom.word] ++ "|ipv6".toList.map Atom.lit

/-- A match of the pattern at the start of the text. -/
def matchHere : List Atom → Str → Bool
  | [], _ => true
  | _ :: _, [] => false
  | Atom.lit a :: ps, c :: cs => c = a && matchHere ps cs
  | Atom.word :: ps, c :: cs => isWordChar c && matchHere ps cs

/-- `regexp.MatchString(pattern, s)` for a pattern of literals and `\w`: the
pattern is not anchored, so it matches when it matches at some position. -/
def MatchString (pattern : List Atom) : Str → Bool
  | [] => matchHere pattern []
  | c :: cs => matchHere pattern (c :: cs) || MatchString pattern cs

/-- `bufio.Reader.ReadString` with delimiter `\n` on the unread input: the
line with its delimiter and the input left, or `none` when the input ends
before a delimiter (the data read so far comes back with `io.EOF`, or with
the read error). -/
def ReadString : Str → Option (Str × Str)
  | [] => none
  | c :: cs =>
    if c = '\n' then some (['\n'], cs)
    else
      match ReadString cs with
      | none => none
      | some (line, rest) => some (c :: line, rest)

/-- The lines the successive calls of `ReadString` return before the first
call that returns an error. -/
def readLines : Str → List Str
  | [] => []
  | c :: cs =>
    if c = '\n' then ['\n'] :: readLines cs
    else
      match readLines cs with
      | [] => []
      | line :: rest => (c :: line) :: rest

/-- How a run of `parseApnicCN2Cos` ends: with a panic, with a return before
the upload, or after the one call `cosClient.Object.Put` with the buffer
content. -/
inductive Outcome where
  | panicked
  | noUpload
  | uploaded (content : Str)
  deriving DecidableEq, Repr

/-- Number of calls of `cosClient.Object.Put` in a run. -/
def Outcome.uploadCalls : Outcome → Nat
  | .uploaded _ => 1
  | _ => 0

/-- The `for` loop of `parseApnicCN2Cos` (main.go 61-77) over the lines that
`ReadString` yields, followed by the upload of the buffer (line 78).  When
`parseLine2IPNet` returns an error the loop prints it and goes on to line 75,
`buf.WriteString(ipNet.String() + "\n")`, with a nil `ipNet`. -/
def scanLoop (lib : Stdlib) : Str → List Str → Outcome
  | buf, [] => .uploaded buf
  | buf, line :: rest =>
    if MatchString ApnicIPv6Prefix line then .uploaded buf
    else if HasPrefix line ApnicCNIPv4Prefix then
      match parseLine2IPNet lib line with
      | .panic => .panicked
      | .error _ =>
        match nilNetString lib with
        | none => .panicked
        | some text => scanLoop lib (buf ++ text ++ ['\n']) rest
      | .ok ipNet => scanLoop lib (buf ++ ipNet.String lib ++ ['\n']) rest
    else scanLoop lib buf rest

/-- What `http.Get` returns: an error (with a nil response, or with the
response of a failed redirect), or a response with its status code and body. -/
inductive FetchResult where
  | failed (hasResponse : Bool)
  | response (status : Nat) (body : Str)
  deriving DecidableEq, Repr

/-- `parseApnicCN2Cos` (main.go 49-82).  `defer resp.Body.Close()` comes before
the error check, so a nil response panics there; a non-nil response with an
error returns at line 55; otherwise the body is scanned and uploaded. -/
def parseApnicCN2Cos (lib : Stdlib) : FetchResult → Outcome
  | .failed hasResponse => if hasResponse then .noUpload else .panicked
  | .response _ body => scanLoop lib [] (readLines body)

/-- What one pass of the loop body appends to the buffer for a line that does
not match the IPv6 pattern; `none` when the pass panics. -/
def lineEntry (lib : Stdlib) (line : Str) : Option Str :=
  if HasPrefix line ApnicCNIPv4Prefix then
    match parseLine2IPNet lib line with
    | .panic => none
    | .error _ => (nilNetString lib).map (fun text => text ++ ['\n'])
    | .ok ipNet => some (ipNet.String lib ++ ['\n'])
  else some []

/-- The entries of the lines that come before the first line matching the IPv6
pattern, in order; `none` when the pass over one of these lines panics. -/
def entries (lib : Stdlib) : List Str → Option (List Str)
  | [] => some []
  | line :: rest =>
    if MatchString ApnicIPv6Prefix line then some []
    else
      match lineEntry lib line with
      | none => none
      | some e => (entries lib rest).map (fun es => e :: es)

/-- `net.IPMask.Size`: the number of leading ones of the mask (the prefix
length of the network) and its number of bits; `(0, 0)` when the mask is not
made of ones followed by zeros. -/
def maskSize (m : List Nat) : Nat × Nat :=
  match simpleMaskLength m with
  | none => (0, 0)
  | some ones => (ones, m.length * 8)

/-! ## Notions used to state the claims -/

/-- An instance of the abstract library part, to run the definitions on
concrete inputs: it rejects every IPv6 text, prints `::` and `NaN` where the
two other functions are asked, and has the nil guard of current releases. -/
def sampleLib : Stdlib where
  parseIPv6 := fun _ => none
  ip6String := fun _ => "::".toList
  inexactPrefix := fun _ => "NaN".toList
  nilStringGuard := true

/-- The decimal text of a natural number. -/
def decimalText (n : Nat) : Str := (Nat.repr n).toList

/-- The dotted-quad text `a.b.c.d`. -/
def dottedQuad (a b c d : Nat) : Str :=
  decimalText a ++ '.' :: (decimalText b ++ '.' :: (decimalText c ++ '.' :: decimalText d))

/-- The text of a decimal integer: an optional sign followed by one or more
decimal digits and nothing else. -/
def isDecimalInt (s : Str) : Bool :=
  match s with
  | [] => false
  | c :: cs =>
    let body := if c = '-' ∨ c = '+' then cs else c :: cs
    !body.isEmpty && body.all Char.isDigit

/-- The 32-bit number of four octets. -/
def addrValue (a b c d : Nat) : Nat := a * 2 ^ 24 + b * 2 ^ 16 + c * 2 ^ 8 + d

/-- The four octets of a 32-bit number. -/
def addrOctets (n : Nat) : List Nat :=
  [n / 2 ^ 24 % 256, n / 2 ^ 16 % 256, n / 2 ^ 8 % 256, n % 256]

/-- A fetch failure in the sense of the specification: a connection error, or
a response whose status is not 2xx. -/
def isFetchFailure : FetchResult → Bool
  | .failed _ => true
  | .response status _ => !(decide (200 ≤ status) && decide (status < 300))

/-- The digit branch of the loop of `netip.parseIPv4` on a run of characters:
the final `val` and `digLen`, or `none` when the loop rejects a character. -/
def octetScan : Nat → Nat → Str → Option (Nat × Nat)
  | val, digLen, [] => some (val, digLen)
  | val, digLen, c :: cs =>
    if c.isDigit then
      if digLen = 1 ∧ val = 0 then none
      else
        let val1 := val * 10 + (c.toNat - '0'.toNat)
        if val1 > 255 then none else octetScan val1 (digLen + 1) cs
    else none

/-! ## Lemmas on the library functions -/

theorem Split_ne_nil (sep : Char) (s : Str) : Split sep s ≠ [] := by
  induction s with
  | nil => simp [Split]
  | cons c cs ih =>
    unfold Split
    split
    · simp
    · split <;> simp

theorem digitsValue_all_digits (s : Str) :
    ∀ acc n, digitsValue acc s = some n → s.all Char.isDigit = true := by
  induction s with
  | nil => intro acc n _; rfl
  | cons c cs ih =>
    intro acc n h
    unfold digitsValue at h
    by_cases hc : c.isDigit = true
    · simp only [hc, if_true] at h
      simp [hc, ih _ _ h]
    · simp [hc] at h

theorem Atoi_isDecimalInt (s : Str) (z : Int) (h : Atoi s = some z) :
    isDecimalInt s = true := by
  cases s with
  | nil => simp [Atoi] at h
  | cons c cs =>
    simp only [Atoi] at h
    simp only [isDecimalInt]
    generalize (if c = '-' ∨ c = '+' then cs else c :: cs) = body at h ⊢
    by_cases hb : body = []
    · simp [hb] at h
    · simp only [hb, if_false] at h
      cases hd : digitsValue 0 body with
      | none => simp [hd] at h
      | some n =>
        have := digitsValue_all_digits _ _ _ hd
        cases body with
        | nil => exact absurd rfl hb
        | cons x xs => simpa using this

theorem zero_toNat : '0'.toNat = 48 := rfl

theorem octetScan_loop (ds : Str) :
    ∀ (val digLen v1 n1 : Nat) (atStart prevDot : Bool) (fields : List Nat) (cs : Str),
      ds ≠ [] → octetScan val digLen ds = some (v1, n1) →
      parseIPv4Loop atStart prevDot fields val digLen (ds ++ cs)
        = parseIPv4Loop false false fields v1 n1 cs := by
  induction ds with
  | nil => intro _ _ _ _ _ _ _ _ h; exact absurd rfl h
  | cons c ds ih =>
    intro val digLen v1 n1 atStart prevDot fields cs _ h
    simp only [octetScan, zero_toNat] at h
    simp only [List.cons_append, parseIPv4Loop, zero_toNat]
    by_cases hc : c.isDigit = true
    · simp only [hc, if_true] at h ⊢
      by_cases hz : digLen = 1 ∧ val = 0
      · simp only [hz, and_self, if_true] at h
        exact absurd h (by simp)
      · simp only [hz, if_false] at h ⊢
        by_cases hv : val * 10 + (c.toNat - 48) > 255
        · simp only [hv, if_true] at h
          exact absurd h (by simp)
        · simp only [hv, if_false] at h ⊢
          cases ds with
          | nil =>
            simp only [octetScan, Option.some.injEq, Prod.mk.injEq] at h
            simp [h.1, h.2]
          | cons d ds => exact ih _ _ _ _ _ _ _ _ (by simp) h
    · simp only [hc] at h
      exact absurd h (by simp)

theorem octetScan_all_digits (ds : Str) :
    ∀ (val digLen : Nat) (r : Nat × Nat), octetScan val digLen ds = some r →
      ∀ c ∈ ds, c.isDigit = true := by
  induction ds with
  | nil => intro _ _ _ _ c hc; simp at hc
  | cons d ds ih =>
    intro val digLen r h c hc
    simp only [octetScan, zero_toNat] at h
    by_cases hd : d.isDigit = true
    · simp only [hd, if_true] at h
      by_cases hz : digLen = 1 ∧ val = 0
      · simp only [hz, and_self, if_true] at h
        exact absurd h (by simp)
      · simp only [hz, if_false] at h
        by_cases hv : val * 10 + (d.toNat - 48) > 255
        · simp only [hv, if_true] at h
          exact absurd h (by simp)
        · simp only [hv, if_false] at h
          rcases List.mem_cons.mp hc with rfl | hc
          · exact hd
          · exact ih _ _ _ h c hc
    · simp only [hd] at h
      exact absurd h (by simp)

set_option maxRecDepth 100000 in
theorem decimalText_octet :
    ∀ a, a < 256 → octetScan 0 0 (decimalText a) = some (a, (decimalText a).length)
      ∧ decimalText a ≠ [] := by
  decide

theorem isDigit_ne (c : Char) (h : c.isDigit = true) :
    c ≠ '.' ∧ c ≠ ':' ∧ c ≠ '%' ∧ c ≠ '/' := by
  refine ⟨?_, ?_, ?_, ?_⟩ <;> (rintro rfl; revert h; decide)

theorem decimalText_octet_digits (a : Nat) (ha : a ≤ 255) :
    ∀ c ∈ decimalText a, c.isDigit = true :=
  octetScan_all_digits _ _ _ _ (decimalText_octet a (by omega)).1

theorem parseIPv4Loop_octet (a : Nat) (ha : a ≤ 255) (atStart prevDot : Bool)
    (fields : List Nat) (cs : Str) :
    parseIPv4Loop atStart prevDot fields 0 0 (decimalText a ++ cs)
      = parseIPv4Loop false false fields a (decimalText a).length cs :=
  octetScan_loop _ _ _ _ _ _ _ _ _ (decimalText_octet a (by omega)).2
    (decimalText_octet a (by omega)).1

theorem parseIPv4_dottedQuad (a b c d : Nat) (ha : a ≤ 255) (hb : b ≤ 255)
    (hc : c ≤ 255) (hd : d ≤ 255) :
    parseIPv4 (dottedQuad a b c d) = some [a, b, c, d] := by
  have nb := (decimalText_octet b (by omega)).2
  have nc := (decimalText_octet c (by omega)).2
  have nd := (decimalText_octet d (by omega)).2
  have hdot : ('.' : Char).isDigit = false := by decide
  have hd0 := parseIPv4Loop_octet d hd false true [a, b, c] []
  rw [List.append_nil] at hd0
  simp only [parseIPv4, dottedQuad, parseIPv4Loop_octet a ha, parseIPv4Loop_octet b hb,
    parseIPv4Loop_octet c hc, hd0, parseIPv4Loop, hdot, List.append_eq_nil, nb, nc, nd,
    List.cons_append, List.nil_append, List.length_nil, List.length_cons, List.length_append]
  simp

theorem ParseAddrFrom_digits (lib : Stdlib) (s ds rest : Str)
    (h : ∀ c ∈ ds, c.isDigit = true) :
    ParseAddrFrom lib s (ds ++ '.' :: rest) = (parseIPv4 s).map Addr.v4 := by
  induction ds with
  | nil => simp [ParseAddrFrom]
  | cons c ds ih =>
    have hc := isDigit_ne c (h c (by simp))
    simp only [List.cons_append, ParseAddrFrom, hc.1, hc.2.1, hc.2.2.1, if_false]
    exact ih (fun x hx => h x (by simp [hx]))

theorem ParseAddr_dottedQuad (lib : Stdlib) (a b c d : Nat) (ha : a ≤ 255)
    (hb : b ≤ 255) (hc : c ≤ 255) (hd : d ≤ 255) :
    ParseAddr lib (dottedQuad a b c d) = some (Addr.v4 [a, b, c, d]) := by
  have h := ParseAddrFrom_digits lib (dottedQuad a b c d) (decimalText a)
    (decimalText b ++ '.' :: (decimalText c ++ '.' :: decimalText d))
    (decimalText_octet_digits a ha)
  unfold ParseAddr
  have e : dottedQuad a b c d
      = decimalText a ++ '.' ::
          (decimalText b ++ '.' :: (decimalText c ++ '.' :: decimalText d)) :=
    rfl
  rw [e] at h ⊢
  rw [h, ← e, parseIPv4_dottedQuad a b c d ha hb hc hd]
  rfl

theorem cutAt_append (sep : Char) (xs rest : Str) (h : sep ∉ xs) :
    cutAt sep (xs ++ sep :: rest) = some (xs, rest) := by
  induction xs with
  | nil => simp [cutAt]
  | cons x xs ih =>
    have hx : x ≠ sep := fun e => h (by simp [e])
    have hxs : sep ∉ xs := fun e => h (by simp [e])
    simp [cutAt, hx, ih hxs]

theorem slash_not_mem_dottedQuad (a b c d : Nat) (ha : a ≤ 255) (hb : b ≤ 255)
    (hc : c ≤ 255) (hd : d ≤ 255) : '/' ∉ dottedQuad a b c d := by
  intro h
  have key : ∀ n, n ≤ 255 → '/' ∉ decimalText n := fun n hn hm =>
    (isDigit_ne _ (decimalText_octet_digits n hn _ hm)).2.2.2 rfl
  simp only [dottedQuad, List.mem_append, List.mem_cons] at h
  rcases h with h | h | h | h | h | h | h
  · exact key a ha h
  · exact absurd h (by decide)
  · exact key b hb h
  · exact absurd h (by decide)
  · exact key c hc h
  · exact absurd h (by decide)
  · exact key d hd h

theorem Atoi_pow2 (k : Nat) (hk : k ≤ 32) :
    Atoi (decimalText (2 ^ k)) = some ((2 ^ k : Nat) : Int) := by
  interval_cases k <;> decide

theorem prefixText_pow2 (lib : Stdlib) (k : Nat) (hk : k ≤ 32) :
    prefixText lib ((2 ^ k : Nat) : Int) = decimalText (32 - k) := by
  interval_cases k <;> rfl

theorem dtoi_prefix (k : Nat) (hk : k ≤ 32) :
    dtoi (decimalText (32 - k)) = some (32 - k, (decimalText (32 - k)).length) := by
  interval_cases k <;> decide

theorem simpleMaskLength_CIDRMask (k : Nat) (hk : k ≤ 32) :
    simpleMaskLength (CIDRMask (32 - k) 32) = some (32 - k) := by
  interval_cases k <;> decide

theorem cidrMaskBytes_length (l : Nat) : ∀ n, (cidrMaskBytes l n).length = l := by
  induction l with
  | zero => intro n; rfl
  | succ l ih =>
    intro n
    unfold cidrMaskBytes
    split <;> simp [ih]

theorem CIDRMask_32_length (n : Nat) : (CIDRMask n 32).length = 4 :=
  cidrMaskBytes_length 4 n

theorem IPMask_v4 (a b c d : Nat) (m : List Nat) (hm : m.length = 4) :
    IPMask (Addr.v4 [a, b, c, d]).As16 m
      = some (List.zipWith (fun x y => x &&& y) [a, b, c, d] m) := by
  simp [IPMask, Addr.As16, v4InV6Prefix, hm]

/-- `net.ParseCIDR` on a dotted quad followed by `/` and the prefix text of a
power of two. -/
theorem ParseCIDR_dottedQuad (lib : Stdlib) (a b c d k : Nat) (ha : a ≤ 255)
    (hb : b ≤ 255) (hc : c ≤ 255) (hd : d ≤ 255) (hk : k ≤ 32) :
    ParseCIDR lib (dottedQuad a b c d ++ '/' :: decimalText (32 - k))
      = some { IP := some (List.zipWith (fun x y => x &&& y) [a, b, c, d]
                  (CIDRMask (32 - k) 32)),
               Mask := CIDRMask (32 - k) 32 } := by
  have hle : ¬ (32 - k > 32) := by omega
  simp only [ParseCIDR, cutAt_append _ _ _ (slash_not_mem_dottedQuad a b c d ha hb hc hd),
    ParseAddr_dottedQuad lib a b c d ha hb hc hd, dtoi_prefix k hk, Addr.BitLen,
    ne_eq, not_true_eq_false, false_or, hle, if_false,
    IPMask_v4 a b c d _ (CIDRMask_32_length _)]

set_option maxRecDepth 100000 in
theorem land_mask_byte : ∀ x, x < 256 →
    (x &&& 0 = 0 ∧ x &&& 128 = x / 128 * 128 ∧ x &&& 192 = x / 64 * 64
      ∧ x &&& 224 = x / 32 * 32 ∧ x &&& 240 = x / 16 * 16 ∧ x &&& 248 = x / 8 * 8
      ∧ x &&& 252 = x / 4 * 4 ∧ x &&& 254 = x / 2 * 2 ∧ x &&& 255 = x) := by
  decide

/-- Masking the four octets with the mask of `32 - k` ones clears the low `k`
bits of the 32-bit address. -/
theorem mask_octets (a b c d k : Nat) (ha : a ≤ 255) (hb : b ≤ 255) (hc : c ≤ 255)
    (hd : d ≤ 255) (hk : k ≤ 32) :
    List.zipWith (fun x y => x &&& y) [a, b, c, d] (CIDRMask (32 - k) 32)
      = addrOctets (addrValue a b c d / 2 ^ k * 2 ^ k) := by
  obtain ⟨a0, a1, a2, a3, a4, a5, a6, a7, a8⟩ := land_mask_byte a (by omega)
  obtain ⟨b0, b1, b2, b3, b4, b5, b6, b7, b8⟩ := land_mask_byte b (by omega)
  obtain ⟨c0, c1, c2, c3, c4, c5, c6, c7, c8⟩ := land_mask_byte c (by omega)
  obtain ⟨d0, d1, d2, d3, d4, d5, d6, d7, d8⟩ := land_mask_byte d (by omega)
  interval_cases k <;>
    simp only [CIDRMask, cidrMaskBytes, List.zipWith, addrOctets, addrValue, List.cons.injEq,
      and_true, Nat.reduceSub, Nat.reduceDiv, Nat.reduceShiftRight, Nat.reduceLeDiff,
      ge_iff_le, if_true, if_false, Nat.reducePow, a0, a1, a2, a3, a4, a5, a6, a7, a8, b0, b1,
      b2, b3, b4, b5, b6, b7, b8, c0, c1, c2, c3, c4, c5, c6, c7, c8, d0, d1, d2, d3, d4,
      d5, d6, d7, d8] <;>
    clear a0 a1 a2 a3 a4 a5 a6 a7 a8 b0 b1 b2 b3 b4 b5 b6 b7 b8
      c0 c1 c2 c3 c4 c5 c6 c7 c8 d0 d1 d2 d3 d4 d5 d6 d7 d8 <;>
    omega

theorem addrValue_lt (a b c d : Nat) (ha : a ≤ 255) (hb : b ≤ 255) (hc : c ≤ 255)
    (hd : d ≤ 255) : addrValue a b c d < 2 ^ 32 := by
  simp only [addrValue, Nat.reducePow]; omega

theorem addrOctets_addrValue (a b c d : Nat) (ha : a ≤ 255) (hb : b ≤ 255)
    (hc : c ≤ 255) (hd : d ≤ 255) : addrOctets (addrValue a b c d) = [a, b, c, d] := by
  simp only [addrOctets, addrValue, Nat.reducePow, List.cons.injEq, and_true]
  omega

theorem addrOctets_inj (m n : Nat) (hm : m < 2 ^ 32) (hn : n < 2 ^ 32)
    (h : addrOctets m = addrOctets n) : m = n := by
  simp only [addrOctets, Nat.reducePow, List.cons.injEq, and_true] at h hm hn
  omega

theorem clear_low_bits_eq_iff (m k : Nat) : m / 2 ^ k * 2 ^ k = m ↔ 2 ^ k ∣ m :=
  ⟨fun h => ⟨m / 2 ^ k, by rw [Nat.mul_comm]; exact h.symm⟩, fun h => Nat.div_mul_cancel h⟩

/-- With a fourth and a fifth field present, `parseLine2IPNet` is the
conversion of the fifth field followed by the CIDR parse. -/
theorem parseLine2IPNet_of_fields (lib : Stdlib) (line item3 item4 : Str)
    (h3 : (Split '|' line)[3]? = some item3) (h4 : (Split '|' line)[4]? = some item4) :
    parseLine2IPNet lib line =
      match Atoi item4 with
      | none => .error .atoi
      | some n =>
        match ParseCIDR lib (item3 ++ '/' :: prefixText lib n) with
        | none => .error .cidr
        | some ipNet => .ok ipNet := by
  have hlen : ¬ (Split '|' line).length < 4 := by
    have := (List.getElem?_eq_some.mp h4).1
    omega
  have h3d : (Split '|' line).getD 3 [] = item3 := by
    simp [List.getD, h3]
  simp only [parseLine2IPNet, hlen, if_false, h4, h3d]

theorem parseLine2IPNet_four_fields (lib : Stdlib) (line : Str)
    (h : (Split '|' line).length = 4) : parseLine2IPNet lib line = .panic := by
  have h4 : (Split '|' line)[4]? = none := by
    rw [List.getElem?_eq_none_iff]; omega
  simp [parseLine2IPNet, h, h4]

theorem parseLine2IPNet_few_fields (lib : Stdlib) (line : Str)
    (h : (Split '|' line).length < 4) : parseLine2IPNet lib line = .error .itemsLess4 := by
  simp [parseLine2IPNet, h]

/-! ## Counts for which the prefix text is computed exactly -/

theorem dtoiLoop_consumed (s : Str) :
    ∀ (n i m j : Nat), dtoiLoop n i s = some (m, j) → j ≤ i + s.length
      ∧ (j = i + s.length → ∀ c ∈ s, c.isDigit = true) := by
  induction s with
  | nil =>
    intro n i m j h
    simp only [dtoiLoop, Option.some.injEq, Prod.mk.injEq] at h
    exact ⟨by simp [h.2], fun _ c hc => by simp at hc⟩
  | cons d ds ih =>
    intro n i m j h
    simp only [dtoiLoop, zero_toNat] at h
    by_cases hd : d.isDigit = true
    · simp only [hd, if_true] at h
      by_cases hbig : n * 10 + (d.toNat - 48) ≥ 0xFFFFFF
      · simp only [hbig, if_true] at h
        exact absurd h (by simp)
      · simp only [hbig, if_false] at h
        obtain ⟨h1, h2⟩ := ih _ _ _ _ h
        refine ⟨by simp only [List.length_cons]; omega, fun hj c hc => ?_⟩
        rcases List.mem_cons.mp hc with rfl | hc
        · exact hd
        · exact h2 (by simp only [List.length_cons] at hj; omega) c hc
    · simp only [hd, Bool.false_eq_true, if_false, Option.some.injEq, Prod.mk.injEq] at h
      refine ⟨by omega, fun hj => ?_⟩
      simp only [List.length_cons] at hj
      omega

/-- `net.dtoi` consumes a whole text only when all its characters are digits. -/
theorem dtoi_whole_digits (s : Str) (n i : Nat) (h : dtoi s = some (n, i))
    (hi : i = s.length) : ∀ c ∈ s, c.isDigit = true := by
  unfold dtoi at h
  cases hl : dtoiLoop 0 0 s with
  | none => simp [hl] at h
  | some p =>
    obtain ⟨m, j⟩ := p
    simp only [hl] at h
    by_cases hj : j = 0
    · simp [hj] at h
    · simp only [hj, if_false, Option.some.injEq, Prod.mk.injEq] at h
      exact (dtoiLoop_consumed s 0 0 m j hl).2 (by omega)

theorem cutAt_suffix (sep : Char) (x t : Str) :
    ∀ a m, cutAt sep (x ++ sep :: t) = some (a, m) → ∀ c ∈ t, c ∈ m := by
  induction x with
  | nil =>
    intro a m h c hc
    simp only [List.nil_append, cutAt, if_true, Option.some.injEq, Prod.mk.injEq] at h
    rw [← h.2]; exact hc
  | cons y ys ih =>
    intro a m h c hc
    simp only [List.cons_append, cutAt] at h
    by_cases hy : y = sep
    · simp only [hy, if_true, Option.some.injEq, Prod.mk.injEq] at h
      rw [← h.2]; simp [hc]
    · simp only [hy, if_false, List.append_eq] at h
      cases hr : cutAt sep (ys ++ sep :: t) with
      | none => simp [hr] at h
      | some p =>
        obtain ⟨a1, m1⟩ := p
        rw [hr] at h
        simp only [Option.some.injEq, Prod.mk.injEq] at h
        rw [← h.2]
        exact ih a1 m1 hr c hc

/-- `net.ParseCIDR` rejects `address/text` when `text` has a character that
is not a decimal digit, whatever the address part is. -/
theorem ParseCIDR_non_digit (lib : Stdlib) (addr text : Str) (c : Char)
    (hc : c ∈ text) (hnd : c.isDigit = false) :
    ParseCIDR lib (addr ++ '/' :: text) = none := by
  unfold ParseCIDR
  cases hcut : cutAt '/' (addr ++ '/' :: text) with
  | none => rfl
  | some p =>
    obtain ⟨a, m⟩ := p
    have hm := cutAt_suffix '/' addr text a m hcut c hc
    simp only []
    cases ParseAddr lib a with
    | none => rfl
    | some ipAddr =>
      simp only []
      cases hd : dtoi m with
      | none => rfl
      | some q =>
        obtain ⟨n, i⟩ := q
        simp only []
        by_cases hi : i = m.length
        · have := dtoi_whole_digits m n i hd hi c hm
          rw [hnd] at this
          exact absurd this (by decide)
        · simp [hi]

theorem prefixText_pow2_large (lib : Stdlib) (k : Nat) (h1 : 33 ≤ k) (h2 : k ≤ 62) :
    prefixText lib ((2 ^ k : Nat) : Int) = '-' :: decimalText (k - 32) := by
  interval_cases k <;> rfl

/-- The counts whose prefix text is computed without `math.Log` and is not a
prefix length: zero (`+Inf`), a negative count (`NaN`) and a power of two from
`2^33` on (a negative whole number) all end in the error of `net.ParseCIDR`. -/
theorem parseLine2IPNet_exact_count_rejected (lib : Stdlib) (line item4 : Str) (n : Int)
    (hlen : 5 ≤ (Split '|' line).length)
    (h4 : (Split '|' line)[4]? = some item4)
    (hcount : Atoi item4 = some n)
    (hn : n ≤ 0 ∨ ∃ k, 33 ≤ k ∧ k ≤ 62 ∧ n = ((2 ^ k : Nat) : Int)) :
    parseLine2IPNet lib line = .error .cidr := by
  obtain ⟨item3, h3⟩ : ∃ item3, (Split '|' line)[3]? = some item3 :=
    ⟨(Split '|' line)[3], List.getElem?_eq_some.mpr ⟨by omega, rfl⟩⟩
  rw [parseLine2IPNet_of_fields lib line item3 item4 h3 h4, hcount]
  have key : ∃ c ∈ prefixText lib n, c.isDigit = false := by
    rcases hn with hn | ⟨k, h1, h2, rfl⟩
    · by_cases hz : n = 0
      · subst hz
        exact ⟨'+', by simp [prefixText], by decide⟩
      · have hneg : n < 0 := by omega
        refine ⟨'N', ?_, by decide⟩
        simp only [prefixText, hneg, if_true]
        decide
    · rw [prefixText_pow2_large lib k h1 h2]
      exact ⟨'-', by simp, by decide⟩
  obtain ⟨c, hc, hnd⟩ := key
  simp only [ParseCIDR_non_digit lib item3 _ c hc hnd]

/-- With the nil guard of `(*IPNet).String`, a qualifying line on which
`parseLine2IPNet` returns an error adds the entry `<nil>` to the buffer and the
loop goes on with the next line. -/
theorem scanLoop_error_line (lib : Stdlib) (buf line : Str) (rest : List Str)
    (e : ParseErr) (hg : lib.nilStringGuard = true)
    (hm : MatchString ApnicIPv6Prefix line = false)
    (hq : HasPrefix line ApnicCNIPv4Prefix = true)
    (he : parseLine2IPNet lib line = .error e) :
    scanLoop lib buf (line :: rest)
      = scanLoop lib (buf ++ "<nil>".toList ++ ['\n']) rest := by
  simp [scanLoop, hm, hq, he, nilNetString, hg]

/-! ## Lemmas on the scan -/

/-- `readLines` is the iteration of `ReadString` until its first error. -/
theorem readLines_eq_ReadString (s : Str) :
    readLines s =
      match ReadString s with
      | none => []
      | some (line, rest) => line :: readLines rest := by
  induction s with
  | nil => rfl
  | cons c cs ih =>
    by_cases hc : c = '\n'
    · simp [readLines, ReadString, hc]
    · simp only [readLines, ReadString, hc, if_false]
      rw [ih]
      cases ReadString cs with
      | none => rfl
      | some p => rfl

theorem readLines_no_newline (t : Str) (h : '\n' ∉ t) : readLines t = [] := by
  induction t with
  | nil => rfl
  | cons c cs ih =>
    have hc : c ≠ '\n' := fun e => h (by simp [e])
    have hcs : '\n' ∉ cs := fun e => h (by simp [e])
    simp [readLines, hc, ih hcs]

/-- An unterminated tail yields no line. -/
theorem readLines_append_tail (pre tail : Str) (h : '\n' ∉ tail) :
    readLines (pre ++ tail) = readLines pre := by
  induction pre with
  | nil => simpa using readLines_no_newline tail h
  | cons c cs ih =>
    by_cases hc : c = '\n'
    · simp [readLines, hc, ih]
    · simp [readLines, hc, ih]

/-- A line followed by more input is the first line read. -/
theorem readLines_line_append (l0 rest : Str) (h : '\n' ∉ l0) :
    readLines (l0 ++ '\n' :: rest) = (l0 ++ ['\n']) :: readLines rest := by
  induction l0 with
  | nil => simp [readLines]
  | cons c cs ih =>
    have hc : c ≠ '\n' := fun e => h (by simp [e])
    have hcs : '\n' ∉ cs := fun e => h (by simp [e])
    simp [readLines, hc, ih hcs]

/-- Every line read is a run of characters other than `\n` followed by `\n`. -/
theorem readLines_terminated (s : Str) :
    ∀ l ∈ readLines s, ∃ l0, l = l0 ++ ['\n'] ∧ '\n' ∉ l0 := by
  induction s with
  | nil => intro l hl; simp [readLines] at hl
  | cons c cs ih =>
    intro l hl
    by_cases hc : c = '\n'
    · simp only [readLines, hc, if_true, List.mem_cons] at hl
      rcases hl with rfl | hl
      · exact ⟨[], rfl, by simp⟩
      · exact ih l hl
    · simp only [readLines, hc, if_false] at hl
      cases hr : readLines cs with
      | nil => simp [hr] at hl
      | cons x xs =>
        simp only [hr, List.mem_cons] at hl
        rcases hl with rfl | hl
        · obtain ⟨x0, hx, hn⟩ := ih x (by simp [hr])
          refine ⟨c :: x0, by simp [hx], ?_⟩
          intro hm
          rcases List.mem_cons.mp hm with e | e
          · exact hc e.symm
          · exact hn e
        · exact ih l (by simp [hr, hl])

/-- Reading back the concatenation of terminated lines gives the lines. -/
theorem readLines_flatten (ls : List Str)
    (h : ∀ l ∈ ls, ∃ l0, l = l0 ++ ['\n'] ∧ '\n' ∉ l0) :
    readLines ls.flatten = ls := by
  induction ls with
  | nil => rfl
  | cons l ls ih =>
    obtain ⟨l0, rfl, hn⟩ := h l (by simp)
    have := readLines_line_append l0 ls.flatten hn
    simp only [List.flatten_cons, List.append_assoc, List.singleton_append]
    rw [this, ih (fun x hx => h x (by simp [hx]))]

theorem readLines_flatten_take (s : Str) (i : Nat) :
    readLines ((readLines s).take i).flatten = (readLines s).take i :=
  readLines_flatten _ (fun l hl => readLines_terminated s l (List.mem_of_mem_take hl))

/-- The loop does not look past a line that matches the IPv6 pattern. -/
theorem scanLoop_take_marker (lib : Stdlib) (ls : List Str) :
    ∀ (i : Nat) (buf m : Str), ls[i]? = some m → MatchString ApnicIPv6Prefix m = true →
      scanLoop lib buf ls = scanLoop lib buf (ls.take i) := by
  induction ls with
  | nil => intro i buf m h; simp at h
  | cons l ls ih =>
    intro i buf m h hm
    cases i with
    | zero =>
      simp only [List.getElem?_cons_zero, Option.some.injEq] at h
      subst h
      simp [scanLoop, hm]
    | succ i =>
      simp only [List.getElem?_cons_succ] at h
      simp only [List.take_succ_cons, scanLoop]
      split
      · rfl
      · split
        · split
          · rfl
          · split
            · rfl
            · exact ih i _ m h hm
          · exact ih i _ m h hm
        · exact ih i _ m h hm

/-- The loop as a function of the lines: the run panics when the pass over a
line before the IPv6 marker panics, and otherwise uploads the buffer followed
by the entries of these lines, in order. -/
theorem scanLoop_eq_entries (lib : Stdlib) (ls : List Str) :
    ∀ buf, scanLoop lib buf ls =
      match entries lib ls with
      | none => .panicked
      | some es => .uploaded (buf ++ es.flatten) := by
  induction ls with
  | nil => intro buf; simp [scanLoop, entries]
  | cons l ls ih =>
    intro buf
    by_cases hm : MatchString ApnicIPv6Prefix l = true
    · simp [scanLoop, entries, hm]
    · by_cases hq : HasPrefix l ApnicCNIPv4Prefix = true
      · cases hp : parseLine2IPNet lib l with
        | panic => simp [scanLoop, entries, lineEntry, hm, hq, hp]
        | error e =>
          cases hn : nilNetString lib with
          | none => simp [scanLoop, entries, lineEntry, hm, hq, hp, hn]
          | some text =>
            simp only [scanLoop, entries, lineEntry, hm, hq, hp, hn, if_true, Option.map_some',
              Bool.false_eq_true, if_false, ih]
            cases entries lib ls <;> simp
        | ok net =>
          simp only [scanLoop, entries, lineEntry, hm, hq, hp, if_true,
            Bool.false_eq_true, if_false, ih]
          cases entries lib ls <;> simp
      · simp only [scanLoop, entries, lineEntry, hm, hq, Bool.false_eq_true, if_false, ih]
        cases entries lib ls <;> simp

/-! ## C2 -/

/-- C2 (code defect): the guard of `parseLine2IPNet` is `len(items) < 4` while
the next statement reads `items[4]`; on the four-field line
`apnic|CN|ipv4|1.2.3.0` the guard passes and the index expression panics, so no
error value is returned. -/
theorem parseLine2IPNet_four_field_line_panics (lib : Stdlib) :
    (Split '|' "apnic|CN|ipv4|1.2.3.0".toList).length = 4 ∧
      parseLine2IPNet lib "apnic|CN|ipv4|1.2.3.0".toList = .panic :=
  ⟨by decide, parseLine2IPNet_four_fields lib _ (by decide)⟩

/-! ## C8 -/

/-- C8: a line with at least five fields whose fifth field is not the text of
a decimal integer makes `parseLine2IPNet` return an error (the one of
`strconv.Atoi`), hence no network. -/
theorem parseLine2IPNet_non_numeric_count (lib : Stdlib) (line item4 : Str)
    (hlen : 5 ≤ (Split '|' line).length)
    (h4 : (Split '|' line)[4]? = some item4)
    (hnum : isDecimalInt item4 = false) :
    parseLine2IPNet lib line = .error .atoi := by
  obtain ⟨item3, h3⟩ : ∃ item3, (Split '|' line)[3]? = some item3 :=
    ⟨(Split '|' line)[3], List.getElem?_eq_some.mpr ⟨by omega, rfl⟩⟩
  rw [parseLine2IPNet_of_fields lib line item3 item4 h3 h4]
  cases ha : Atoi item4 with
  | none => rfl
  | some z =>
    have := Atoi_isDecimalInt item4 z ha
    rw [hnum] at this
    exact absurd this (by decide)

theorem parseLine2IPNet_non_numeric_count_witness :
    parseLine2IPNet sampleLib "apnic|CN|ipv4|1.2.3.0|abc|20110414|allocated".toList
        = .error .atoi
      ∧ parseLine2IPNet sampleLib "apnic|CN|ipv4|1.2.3.0||20110414".toList = .error .atoi
      ∧ parseLine2IPNet sampleLib "apnic|CN|ipv4|1.2.3.0|256x|20110414".toList
        = .error .atoi :=
  ⟨parseLine2IPNet_non_numeric_count sampleLib _ "abc".toList (by decide) (by decide)
      (by decide),
    parseLine2IPNet_non_numeric_count sampleLib _ "".toList (by decide) (by decide)
      (by decide),
    parseLine2IPNet_non_numeric_count sampleLib _ "256x".toList (by decide) (by decide)
      (by decide)⟩

/-! ## C1 -/

/-- C1: for a line with at least five fields whose fourth field is the dotted
quad `a.b.c.d` (octets at most 255) and whose fifth field is the decimal text
of `2^k`, `k ≤ 32`, `parseLine2IPNet` returns a network, without error, whose
prefix length is exactly `32 - k` (its mask has `32 - k` leading ones out of 32
bits, and its address is the start address under that mask).  In particular
start `1.2.3.0` with count 256 gives exactly `1.2.3.0/24`, and start `1.2.3.4`
with count 1 gives exactly `1.2.3.4/32`. -/
theorem parseLine2IPNet_power_of_two_count (lib : Stdlib) (line : Str)
    (a b c d k : Nat)
    (hlen : 5 ≤ (Split '|' line).length)
    (ha : a ≤ 255) (hb : b ≤ 255) (hc : c ≤ 255) (hd : d ≤ 255) (hk : k ≤ 32)
    (h3 : (Split '|' line)[3]? = some (dottedQuad a b c d))
    (h4 : (Split '|' line)[4]? = some (decimalText (2 ^ k))) :
    ∃ net, parseLine2IPNet lib line = .ok net
      ∧ maskSize net.Mask = (32 - k, 32)
      ∧ net.Mask = CIDRMask (32 - k) 32
      ∧ net.IP = some (List.zipWith (fun x y => x &&& y) [a, b, c, d] net.Mask)
      ∧ (a = 1 → b = 2 → c = 3 → d = 0 → k = 8 →
          net = { IP := some [1, 2, 3, 0], Mask := [255, 255, 255, 0] }
            ∧ net.String lib = "1.2.3.0/24".toList)
      ∧ (a = 1 → b = 2 → c = 3 → d = 4 → k = 0 →
          net = { IP := some [1, 2, 3, 4], Mask := [255, 255, 255, 255] }
            ∧ net.String lib = "1.2.3.4/32".toList) := by
  have _ := hlen
  refine ⟨{ IP := some (List.zipWith (fun x y => x &&& y) [a, b, c, d]
                (CIDRMask (32 - k) 32)),
            Mask := CIDRMask (32 - k) 32 }, ?_, ?_, rfl, rfl, ?_, ?_⟩
  · rw [parseLine2IPNet_of_fields lib line _ _ h3 h4, Atoi_pow2 k hk]
    simp only [prefixText_pow2 lib k hk, ParseCIDR_dottedQuad lib a b c d k ha hb hc hd hk]
  · simp only [maskSize, simpleMaskLength_CIDRMask k hk, CIDRMask_32_length]
  · rintro rfl rfl rfl rfl rfl
    exact ⟨by decide, by rfl⟩
  · rintro rfl rfl rfl rfl rfl
    exact ⟨by decide, by rfl⟩

theorem parseLine2IPNet_power_of_two_count_witness :
    ∃ net, parseLine2IPNet sampleLib "apnic|CN|ipv4|1.2.3.0|256|20110414|allocated".toList
        = .ok net
      ∧ maskSize net.Mask = (32 - 8, 32)
      ∧ net.Mask = CIDRMask (32 - 8) 32
      ∧ net.IP = some (List.zipWith (fun x y => x &&& y) [1, 2, 3, 0] net.Mask)
      ∧ (1 = 1 → 2 = 2 → 3 = 3 → 0 = 0 → 8 = 8 →
          net = { IP := some [1, 2, 3, 0], Mask := [255, 255, 255, 0] }
            ∧ net.String sampleLib = "1.2.3.0/24".toList)
      ∧ (1 = 1 → 2 = 2 → 3 = 3 → 0 = 4 → 8 = 0 →
          net = { IP := some [1, 2, 3, 4], Mask := [255, 255, 255, 255] }
            ∧ net.String sampleLib = "1.2.3.4/32".toList) :=
  parseLine2IPNet_power_of_two_count sampleLib
    "apnic|CN|ipv4|1.2.3.0|256|20110414|allocated".toList 1 2 3 0 8
    (by decide) (by decide) (by decide) (by decide) (by decide) (by decide)
    (by decide) (by decide)

/-! ## C10 -/

/-- C10: when `parseLine2IPNet` succeeds on a line whose fourth field is the
dotted quad of the address `A = a.b.c.d` and whose fifth field converts to the
count `2^k`, `k ≤ 32`, the address of the returned network is `A` with its low
`k` bits cleared (`A / 2^k * 2^k`), not `A` itself; it equals the start address
if and only if `A` is a multiple of `2^k`. -/
theorem parseLine2IPNet_network_address (lib : Stdlib) (line item4 : Str)
    (a b c d k : Nat) (net : IPNet)
    (ha : a ≤ 255) (hb : b ≤ 255) (hc : c ≤ 255) (hd : d ≤ 255) (hk : k ≤ 32)
    (h3 : (Split '|' line)[3]? = some (dottedQuad a b c d))
    (h4 : (Split '|' line)[4]? = some item4)
    (hcount : Atoi item4 = some ((2 ^ k : Nat) : Int))
    (hok : parseLine2IPNet lib line = .ok net) :
    net.IP = some (addrOctets (addrValue a b c d / 2 ^ k * 2 ^ k))
      ∧ maskSize net.Mask = (32 - k, 32)
      ∧ (net.IP = some [a, b, c, d] ↔ 2 ^ k ∣ addrValue a b c d) := by
  rw [parseLine2IPNet_of_fields lib line _ _ h3 h4, hcount] at hok
  simp only [prefixText_pow2 lib k hk, ParseCIDR_dottedQuad lib a b c d k ha hb hc hd hk,
    LineResult.ok.injEq] at hok
  subst hok
  have hip := mask_octets a b c d k ha hb hc hd hk
  refine ⟨by simp only [hip], ?_, ?_⟩
  · simp only [maskSize, simpleMaskLength_CIDRMask k hk, CIDRMask_32_length]
  · simp only [hip, Option.some.injEq]
    rw [← clear_low_bits_eq_iff, ← addrOctets_addrValue a b c d ha hb hc hd]
    have hA := addrValue_lt a b c d ha hb hc hd
    constructor
    · intro h
      exact addrOctets_inj _ _ (lt_of_le_of_lt (Nat.div_mul_le_self _ _) hA) hA h
    · intro h
      rw [h]

theorem parseLine2IPNet_network_address_witness :
    parseLine2IPNet sampleLib "apnic|CN|ipv4|1.2.3.4|256|20110414|allocated".toList
        = .ok { IP := some [1, 2, 3, 0], Mask := [255, 255, 255, 0] }
      ∧ IPNet.String sampleLib { IP := some [1, 2, 3, 0], Mask := [255, 255, 255, 0] }
        = "1.2.3.0/24".toList
      ∧ (some [1, 2, 3, 0] = some (addrOctets (addrValue 1 2 3 4 / 2 ^ 8 * 2 ^ 8))
        ∧ maskSize [255, 255, 255, 0] = (32 - 8, 32)
        ∧ (some [1, 2, 3, 0] = some [1, 2, 3, 4] ↔ 2 ^ 8 ∣ addrValue 1 2 3 4)) :=
  ⟨by decide, by decide,
    parseLine2IPNet_network_address sampleLib
      "apnic|CN|ipv4|1.2.3.4|256|20110414|allocated".toList "256".toList 1 2 3 4 8
      { IP := some [1, 2, 3, 0], Mask := [255, 255, 255, 0] }
      (by decide) (by decide) (by decide) (by decide) (by decide) (by decide) (by decide)
      (by decide) (by decide)⟩

/-! ## C3 -/

/-- C3 (code defect): when `parseLine2IPNet` returns an error, the loop prints
it and still executes `buf.WriteString(ipNet.String() + "\n")` with the nil
network.  On the one-line stream
`apnic|CN|ipv4|1.2.3.0|abc|20110414|allocated\n` the parse fails, and the run
either uploads the placeholder entry `<nil>\n` or panics on the nil receiver;
in no case is the uploaded content empty, as the claim requires. -/
theorem parseApnicCN2Cos_failed_line_placeholder (lib : Stdlib) :
    parseLine2IPNet lib "apnic|CN|ipv4|1.2.3.0|abc|20110414|allocated\n".toList
        = .error .atoi
      ∧ parseApnicCN2Cos lib
          (.response 200 "apnic|CN|ipv4|1.2.3.0|abc|20110414|allocated\n".toList)
        = (if lib.nilStringGuard then .uploaded "<nil>\n".toList else .panicked)
      ∧ parseApnicCN2Cos lib
          (.response 200 "apnic|CN|ipv4|1.2.3.0|abc|20110414|allocated\n".toList)
        ≠ .uploaded [] := by
  have h : parseApnicCN2Cos lib
      (.response 200 "apnic|CN|ipv4|1.2.3.0|abc|20110414|allocated\n".toList)
        = (if lib.nilStringGuard then .uploaded "<nil>\n".toList else .panicked) := by
    cases hg : lib.nilStringGuard <;>
      simp [parseApnicCN2Cos, readLines, scanLoop, MatchString, matchHere, ApnicIPv6Prefix, isWordChar, HasPrefix,
        ApnicCNIPv4Prefix, parseLine2IPNet, Split, Atoi, digitsValue, nilNetString, hg]
  refine ⟨by rfl, h, ?_⟩
  rw [h]
  cases lib.nilStringGuard <;> simp

/-! ## C4 -/

/-- C4: the scan stops at the first line that matches the pattern
`apnic\|\w{2}\|ipv6`: when line `i` of the body is the first matching line, the
run ends exactly as it does on the body truncated just before that line (the
concatenation of the lines before it), whatever follows the marker. -/
theorem parseApnicCN2Cos_stops_at_ipv6_marker (lib : Stdlib) (status : Nat)
    (body m : Str) (i : Nat)
    (hm : (readLines body)[i]? = some m)
    (hmatch : MatchString ApnicIPv6Prefix m = true)
    (hfirst : ∀ l ∈ (readLines body).take i, MatchString ApnicIPv6Prefix l = false) :
    parseApnicCN2Cos lib (.response status body)
      = parseApnicCN2Cos lib (.response status ((readLines body).take i).flatten) := by
  have _ := hfirst
  simp only [parseApnicCN2Cos, readLines_flatten_take]
  exact scanLoop_take_marker lib _ i [] m hm hmatch

theorem parseApnicCN2Cos_stops_at_ipv6_marker_witness :
    parseApnicCN2Cos sampleLib (.response 200
        ("apnic|CN|ipv4|1.2.3.0|256|20110414|allocated\n"
          ++ "apnic|JP|ipv6|2001:200::|35|19990813|allocated\n"
          ++ "apnic|CN|ipv4|9.9.9.0|256|20110414|allocated\n").toList)
        = .uploaded "1.2.3.0/24\n".toList
      ∧ parseApnicCN2Cos sampleLib (.response 200
          ("apnic|CN|ipv4|1.2.3.0|256|20110414|allocated\n"
            ++ "apnic|JP|ipv6|2001:200::|35|19990813|allocated\n"
            ++ "apnic|CN|ipv4|9.9.9.0|256|20110414|allocated\n").toList)
        = parseApnicCN2Cos sampleLib (.response 200
            ((readLines ("apnic|CN|ipv4|1.2.3.0|256|20110414|allocated\n"
              ++ "apnic|JP|ipv6|2001:200::|35|19990813|allocated\n"
              ++ "apnic|CN|ipv4|9.9.9.0|256|20110414|allocated\n").toList).take 1).flatten) :=
  ⟨by decide,
    parseApnicCN2Cos_stops_at_ipv6_marker sampleLib 200 _
      "apnic|JP|ipv6|2001:200::|35|19990813|allocated\n".toList 1
      (by decide) (by decide) (by decide)⟩

/-! ## C5 -/

/-- C5 (code defect): a qualifying line on which `parseLine2IPNet` returns an
error does not by itself end the scan when `(*IPNet).String` has its nil guard,
but the run is not safe against the next bad record: on the stream
`apnic|CN|ipv4|1.2.3.0|abc|20110414|allocated\n` followed by
`apnic|CN|ipv4|1.2.4.0\n` the first line returns an error, and the run panics
(at the first line without the nil guard, at the four-field second line with
it), so the upload does not take place. -/
theorem parseApnicCN2Cos_no_upload_after_failed_line (lib : Stdlib) :
    parseLine2IPNet lib "apnic|CN|ipv4|1.2.3.0|abc|20110414|allocated\n".toList
        = .error .atoi
      ∧ parseApnicCN2Cos lib (.response 200
          ("apnic|CN|ipv4|1.2.3.0|abc|20110414|allocated\n"
            ++ "apnic|CN|ipv4|1.2.4.0\n").toList) = .panicked
      ∧ (parseApnicCN2Cos lib (.response 200
          ("apnic|CN|ipv4|1.2.3.0|abc|20110414|allocated\n"
            ++ "apnic|CN|ipv4|1.2.4.0\n").toList)).uploadCalls = 0 := by
  have h : parseApnicCN2Cos lib (.response 200
      ("apnic|CN|ipv4|1.2.3.0|abc|20110414|allocated\n"
        ++ "apnic|CN|ipv4|1.2.4.0\n").toList) = .panicked := by
    cases hg : lib.nilStringGuard <;>
      simp [parseApnicCN2Cos, readLines, scanLoop, MatchString, matchHere, ApnicIPv6Prefix, isWordChar, HasPrefix,
        ApnicCNIPv4Prefix, parseLine2IPNet, Split, Atoi, digitsValue, nilNetString, hg]
  exact ⟨by rfl, h, by rw [h]; rfl⟩

/-! ## C6 -/

/-- C6, counterexample: a response with status 404 (and an empty body) is a
fetch failure in the sense of the claim, and the run makes one upload call. -/
theorem parseApnicCN2Cos_uploads_on_404 :
    isFetchFailure (.response 404 []) = true
      ∧ (parseApnicCN2Cos sampleLib (.response 404 [])).uploadCalls = 1 := by
  decide

/-- C6, as the code has it: a connection error (an error from `http.Get`, with
or without a response) leads to zero upload calls, while the status code of a
response is only printed: a response is scanned and uploaded in the same way
whatever its status, and a response with an empty body is uploaded as the
empty content with one upload call. -/
theorem parseApnicCN2Cos_fetch_error_no_upload (lib : Stdlib) :
    (∀ hasResponse, (parseApnicCN2Cos lib (.failed hasResponse)).uploadCalls = 0)
      ∧ (∀ status body,
          parseApnicCN2Cos lib (.response status body)
            = parseApnicCN2Cos lib (.response 200 body))
      ∧ (∀ status, parseApnicCN2Cos lib (.response status []) = .uploaded []
          ∧ (parseApnicCN2Cos lib (.response status [])).uploadCalls = 1) := by
  refine ⟨?_, fun _ _ => rfl, fun _ => ⟨rfl, rfl⟩⟩
  intro hasResponse
  cases hasResponse <;> rfl

/-! ## C9 -/

/-- C9: a last line that is not terminated by `\n` is never processed:
`ReadString` returns it together with the end-of-input error and the loop
breaks first, so the run on `pre ++ tail`, where `tail` has no `\n`, ends as
the run on `pre` does (same lines seen by the loop, same uploaded content),
even when `tail` is a valid `apnic|CN|ipv4` record. -/
theorem parseApnicCN2Cos_drops_unterminated_tail (lib : Stdlib) (status : Nat)
    (pre tail : Str) (htail : '\n' ∉ tail) :
    readLines (pre ++ tail) = readLines pre
      ∧ parseApnicCN2Cos lib (.response status (pre ++ tail))
        = parseApnicCN2Cos lib (.response status pre) := by
  have h := readLines_append_tail pre tail htail
  exact ⟨h, by simp only [parseApnicCN2Cos, h]⟩

theorem parseApnicCN2Cos_drops_unterminated_tail_witness :
    parseLine2IPNet sampleLib "apnic|CN|ipv4|1.2.4.0|256|20110414|allocated".toList
        = .ok { IP := some [1, 2, 4, 0], Mask := [255, 255, 255, 0] }
      ∧ readLines ("apnic|CN|ipv4|1.2.3.0|256|20110414|allocated\n".toList
          ++ "apnic|CN|ipv4|1.2.4.0|256|20110414|allocated".toList)
        = readLines "apnic|CN|ipv4|1.2.3.0|256|20110414|allocated\n".toList
      ∧ parseApnicCN2Cos sampleLib (.response 200
          ("apnic|CN|ipv4|1.2.3.0|256|20110414|allocated\n".toList
            ++ "apnic|CN|ipv4|1.2.4.0|256|20110414|allocated".toList))
        = parseApnicCN2Cos sampleLib
            (.response 200 "apnic|CN|ipv4|1.2.3.0|256|20110414|allocated\n".toList) :=
  ⟨by decide,
    parseApnicCN2Cos_drops_unterminated_tail sampleLib 200
      "apnic|CN|ipv4|1.2.3.0|256|20110414|allocated\n".toList
      "apnic|CN|ipv4|1.2.4.0|256|20110414|allocated".toList (by decide)⟩

end ApnicCN
